import Mathlib

set_option maxHeartbeats 1000000

/-!
Shallow embedding of the prep collation tool (src/prep.c): the testimony
model (witnesses, hands, parallels, macro tables, reading-set references),
the reduction pipeline (mandate pass, constant-variant suppression,
fragment and correction thresholds, year cutoff, identical-witness
suppression), the stratifier, the weight parsing of reading separators and
the status handling of the main dispatch loop, together with theorems
checking the specification claims.

Machine integers of the C program are modelled as Nat: every quantity
involved (weights, totals, thresholds, counts, years) is nonnegative on
the states the program reaches, and C integer division on nonnegative
operands agrees with Nat division.
-/

/-- Missing state marker, the MISSING character of prep.c. -/
def MISSING : Char := '?'

/-- Status codes of the interpreter, the Status enum of prep.c. -/
inductive Stat
  | OK
  | WARN
  | END
  | FATAL
deriving DecidableEq

/-- Numeric value of a status code (enum order in prep.c). -/
def statNum : Stat → Int
  | Stat.OK => 0
  | Stat.WARN => 1
  | Stat.END => 2
  | Stat.FATAL => 3

/-- Result of findMSS: a witness index with a hand number, or one of the
error codes NOMSS, SUPPRESSED, BADHAND. -/
inductive FindR
  | found (ms hh : Nat)
  | nomss
  | supp
  | badhand
deriving DecidableEq

/-- One hand of one witness in one parallel (struct hand of prep.h).
Reading sets are references (indices into a heap of state strings), so
that the identical-witness check can compare references exactly as the C
compares pointers. -/
structure Hand where
  sets : Nat → Option Nat
  earliest : Nat
  average : Nat
  latest : Nat
  stratum : Nat
  suppressed : Bool
  mandated : Bool
  lastHand : Nat

/-- The hand grid: parallel index, witness index, hand index. -/
abbrev Hands := Nat → Nat → Nat → Hand

/-- A macro: priority level and member set (struct macro of prep.h). -/
structure MacM where
  level : Nat
  inset : Nat → Bool

/-- The run context (struct context of prep.h) restricted to what the
reduction pipeline reads: sizes, the hand grid, the heap of reading-set
strings, unit weights, the weighted total, the macro table of the current
parallel, witness names and the command-line subset. -/
structure Ctx where
  nParallels : Nat
  nMSS : Nat
  parallel : Nat
  nPiece : Nat
  pieceUnits : Nat → Nat
  hands : Hands
  heap : Nat → List Char
  nVar : Nat
  wgts : Nat → Nat
  wvar : Nat
  root : Bool
  macs : Char → Option MacM
  mssNames : List (List Char)
  subset : List (List Char)
  corrected : Nat → Bool

/-- Environment configuration read by the pipeline: FRAG, CORR, YEAR,
NOSING, IDOK. -/
structure Cfg where
  fragEnv : Option Nat
  corrEnv : Option Nat
  yearEnv : Option Nat
  nosing : Bool
  idok : Bool

/-- Pair each list element with its index, starting at i. -/
def withIdx {α : Type} (l : List α) (i : Nat) : List (Nat × α) :=
  match l with
  | [] => []
  | a :: t => (i, a) :: withIdx t (i + 1)

/-- Update the hand grid at one point. -/
def updHand (hs : Hands) (pp ms hh : Nat) (f : Hand → Hand) : Hands :=
  fun p m h => if p = pp ∧ m = ms ∧ h = hh then f (hs p m h) else hs p m h

/-- Set the suppressed flag of one hand. -/
def suppressHand (hs : Hands) (pp ms hh : Nat) : Hands :=
  updHand hs pp ms hh fun x => { x with suppressed := true }

/-- Decimal digit prefix of a token, as atoi reads a nonnegative number. -/
def atoiNat (s : List Char) : Nat :=
  (s.takeWhile fun c => c.isDigit).foldl (fun a c => a * 10 + (c.toNat - 48)) 0

/-- Name surgery at the start of findMSS: drop a single trailing dot (when
the first dot of the name is its last character), then cut the name at the
first tick character (code 39). -/
def chopTok (tok : List Char) : List Char :=
  let t1 := if tok.findIdx? (fun c => c == '.') = some (tok.length - 1)
            then tok.dropLast else tok
  t1.takeWhile fun c => !(c == Char.ofNat 39)

/-- findMSS of prep.c: resolve a witness token to an index and a hand. A
leading minus is the SUPPRESSED marker; a colon in the original token
introduces a hand number (BADHAND above MAXHAND, which is 4); the name
before the colon is looked up in the witness list. -/
def findMSS (names : List (List Char)) (tok0 : List Char) : FindR :=
  let tok := chopTok tok0
  if tok.head? = some '-' then FindR.supp
  else
    let hh := match tok0.findIdx? (fun c => c == ':') with
              | some i => atoiNat (tok0.drop (i + 1))
              | none => 0
    if 4 < hh then FindR.badhand
    else
      match names.findIdx? (fun nm => nm == tok.takeWhile (fun c => !(c == ':'))) with
      | some ms => FindR.found ms hh
      | none => FindR.nomss

/-- getMacro of prep.c for the current parallel: look the second character
of the token up in the macro table. -/
def getMac (c : Ctx) (tok : List Char) : Option MacM :=
  c.macs ((tok[1]?).getD (Char.ofNat 0))

/-- One step of the mandate loop of mandateTx: a macro token marks hand 0
of every member witness of the current parallel (skipping the root when
one is configured); a witness token marks the named hand; an unknown or
already suppressed name leaves a warning status. -/
def mandStep (c : Ctx) (st : Hands × Stat) (tok : List Char) : Hands × Stat :=
  if tok.head? = some '$' then
    match getMac c tok with
    | none => (st.1, Stat.WARN)
    | some mac =>
      (fun p m h =>
        if p = c.parallel ∧ (if c.root then 1 else 0) ≤ m ∧ m < c.nMSS
            ∧ mac.inset m = true ∧ h = 0
        then { st.1 p m h with mandated := true } else st.1 p m h,
       st.2)
  else
    match findMSS c.mssNames tok with
    | FindR.found ms hh =>
      (updHand st.1 c.parallel ms hh (fun x => { x with mandated := true }), st.2)
    | _ => (st.1, Stat.WARN)

/-- The flag-setting phase of mandateTx over the command-line subset. -/
def mandPhase1 (c : Ctx) : Hands × Stat :=
  c.subset.foldl (mandStep c) (c.hands, Stat.OK)

/-- The allow-list sweep of mandateTx: every in-range hand that is neither
suppressed nor mandated becomes suppressed. -/
def mandSweep (c : Ctx) (hs : Hands) : Hands :=
  fun p m h =>
    if p < c.nParallels ∧ m < c.nMSS ∧ h < 4 then
      (if (hs p m h).suppressed = false ∧ (hs p m h).mandated = false
       then { hs p m h with suppressed := true } else hs p m h)
    else hs p m h

/-- mandateTx of prep.c: with an empty subset do nothing; otherwise set
the mandate flags, and run the allow-list sweep only when no name left a
warning. -/
def mandateTx (c : Ctx) : Ctx :=
  if c.subset = [] then c
  else if (mandPhase1 c).2 = Stat.OK then { c with hands := mandSweep c (mandPhase1 c).1 }
  else { c with hands := (mandPhase1 c).1 }

/-- Iteration order of the hand grid: parallels, then witnesses, then the
four hands. -/
def handList (c : Ctx) : List (Nat × Nat × Nat) :=
  (List.range c.nParallels).flatMap fun pp =>
    (List.range c.nMSS).flatMap fun ms =>
      (List.range 4).map fun hh => (pp, ms, hh)

/-- The state character suppressVr reads for one hand at one unit: the
reading set of the hand for the piece, else (for a hand index above 0)
the set of its lastHand link, else the default character, which is the
digit zero for the designated root cell and MISSING otherwise. -/
def readState (c : Ctx) (pp ms hh pc pv : Nat) : Char :=
  let r := match (c.hands pp ms hh).sets pc with
           | some rr => some rr
           | none =>
             if 0 < hh then (c.hands pp ms (c.hands pp ms hh).lastHand).sets pc else none
  match r with
  | some rr => (c.heap rr).getD pv MISSING
  | none => if c.root ∧ pp = 0 ∧ ms = 0 then '0' else MISSING

/-- The states the unsuppressed hands attest at one unit, in iteration
order, missing states dropped. -/
def unitStates (c : Ctx) (pc pv : Nat) : List Char :=
  (handList c).filterMap fun t =>
    if (c.hands t.1 t.2.1 t.2.2).suppressed then none
    else if readState c t.1 t.2.1 t.2.2 pc pv = MISSING then none
    else some (readState c t.1 t.2.1 t.2.2 pc pv)

/-- One step of the state-counting loop of suppressVr: the list of states
seen so far, the count of each state, and the number of states counted at
least twice. -/
def tallyStep (acc : List Char × (Char → Nat) × Nat) (ch : Char) :
    List Char × (Char → Nat) × Nat :=
  if ch ∈ acc.1 then
    (acc.1,
     fun x => if x = ch then acc.2.1 ch + 1 else acc.2.1 x,
     if acc.2.1 ch + 1 = 2 then acc.2.2 + 1 else acc.2.2)
  else
    (acc.1 ++ [ch], fun x => if x = ch then 1 else acc.2.1 x, acc.2.2)

/-- The state tally of suppressVr at one unit. -/
def unitTally (c : Ctx) (pc pv : Nat) : List Char × (Char → Nat) × Nat :=
  (unitStates c pc pv).foldl tallyStep ([], fun _ => 0, 0)

/-- The elimination test of suppressVr: at most one attested state, or
under NOSING at most one state attested twice. -/
def elimUnit (n : Bool) (c : Ctx) (pc pv : Nat) : Bool :=
  decide ((unitTally c pc pv).1.length ≤ 1)
  || (n && decide ((unitTally c pc pv).2.2 ≤ 1))

/-- The elimination test in the words of the specification: the number of
distinct attested states is at most 1, or under singleton mode fewer than
two states are attested by at least two hands. -/
def specConstB (n : Bool) (c : Ctx) (pc pv : Nat) : Bool :=
  decide ((unitStates c pc pv).toFinset.card ≤ 1)
  || (n && decide (((unitStates c pc pv).toFinset.filter
        fun ch => 2 ≤ (unitStates c pc pv).count ch).card ≤ 1))

/-- The elementary units in order: every piece, every unit of the piece. -/
def unitList (c : Ctx) : List (Nat × Nat) :=
  (List.range c.nPiece).flatMap fun pc =>
    (List.range (c.pieceUnits pc)).map fun pv => (pc, pv)

/-- One unit step of suppressVr: eliminate the unit by zeroing its weight
and subtracting the weight from the weighted total. -/
def vrStep (n : Bool) (c : Ctx) (vu : Nat × Nat × Nat) : Ctx :=
  if elimUnit n c vu.2.1 vu.2.2 = true then
    { c with wvar := c.wvar - c.wgts vu.1,
             wgts := fun v => if v = vu.1 then 0 else (c.wgts v) }
  else c

/-- suppressVr of prep.c. -/
def suppressVr (n : Bool) (c : Ctx) : Ctx :=
  (withIdx (unitList c) 0).foldl (vrStep n) c

/-- Total weight of the units the elimination test removes. -/
def elimTotal (n : Bool) (c : Ctx) : Nat :=
  (((withIdx (unitList c) 0).filter fun vu => specConstB n c vu.2.1 vu.2.2).map
    fun vu => c.wgts vu.1).sum

/-- CTHRESHOLD of prep.c. -/
def CTHRESHOLD : Nat := 100

/-- Fragment threshold of suppressTx: the FRAG override, else half the
weighted total plus one. -/
def fragThresh (cfg : Cfg) (c : Ctx) : Nat :=
  match cfg.fragEnv with
  | some v => v
  | none => c.wvar / 2 + 1

/-- Correction threshold of suppressTx: the CORR override, else the
constant CTHRESHOLD when there are more than twice CTHRESHOLD units, else
a tenth of the weighted total plus one. -/
def corrThresh (cfg : Cfg) (c : Ctx) : Nat :=
  match cfg.corrEnv with
  | some v => v
  | none => if 2 * CTHRESHOLD < c.nVar then CTHRESHOLD else c.wvar / 10 + 1

/-- Weighted count of the non-missing readings of hand 0, the nExtant
loop of suppressTx; the pair carries the running unit index. -/
def nExtantCalc (c : Ctx) (h0 : Hand) : Nat :=
  ((List.range c.nPiece).foldl (fun (a : Nat × Nat) pc =>
    match h0.sets pc with
    | none => (a.1 + c.pieceUnits pc, a.2)
    | some rr =>
      (a.1 + (c.heap rr).length,
       (withIdx (c.heap rr) 0).foldl
         (fun n ci => if ci.2 ≠ MISSING then n + c.wgts (a.1 + ci.1) else n) a.2))
    (0, 0)).2

/-- One piece of the corrector diff loop of suppressTx: an unset piece
inherits the reading set of hand lh (mutating the grid); a set piece adds
the weight of every unit where the two states differ, a unit the earlier
hand lacks counting as MISSING. The state carries the running unit index
and the difference count. -/
def corrStep (c : Ctx) (pp ms hh lh : Nat) (st : Hands × Nat × Nat) (pc : Nat) :
    Hands × Nat × Nat :=
  match (st.1 pp ms hh).sets pc with
  | none =>
    (updHand st.1 pp ms hh (fun x =>
       { x with sets := fun q => if q = pc then (st.1 pp ms lh).sets pc else x.sets q }),
     st.2.1 + c.pieceUnits pc, st.2.2)
  | some rr =>
    (st.1, st.2.1 + (c.heap rr).length,
     (withIdx (c.heap rr) 0).foldl (fun n ci =>
        let lhRdg := match (st.1 pp ms lh).sets pc with
                     | some l2 => (c.heap l2).getD ci.1 MISSING
                     | none => MISSING
        if ci.2 ≠ lhRdg then n + c.wgts (st.2.1 + ci.1) else n) st.2.2)

/-- The corrector diff loop of suppressTx for hand hh against hand lh. -/
def corrPieces (c : Ctx) (hs : Hands) (pp ms hh lh : Nat) : Hands × Nat :=
  let r := (List.range c.nPiece).foldl (corrStep c pp ms hh lh) (hs, 0, 0)
  (r.1, r.2.2)

/-- The fragment check of suppressTx on hand 0: suppress a non-root hand 0
whose weighted extant count is below the threshold, unless mandated. -/
def fragHand0 (fT : Nat) (c : Ctx) (pp ms : Nat) : Hands :=
  if (c.root = false ∨ 0 < ms) ∧ nExtantCalc c (c.hands pp ms 0) < fT
      ∧ (c.hands pp ms 0).mandated = false
  then suppressHand c.hands pp ms 0 else c.hands

/-- One corrector hand of suppressTx: run the diff loop against the last
kept hand, suppress the hand below the threshold when unmandated, else
keep it, record its lastHand link and make it the new last kept hand. -/
def corrHandStep (c : Ctx) (cT pp ms : Nat) (st : Hands × Nat) (hh : Nat) : Hands × Nat :=
  let pr := corrPieces c st.1 pp ms hh st.2
  if pr.2 < cT ∧ (pr.1 pp ms hh).mandated = false
  then (suppressHand pr.1 pp ms hh, st.2)
  else (updHand pr.1 pp ms hh (fun x => { x with lastHand := st.2 }), hh)

/-- suppressTx processing of one witness: the fragment check on hand 0,
then the corrector loop over hands 1 to 3, then the corrected flag. A
witness with every hand suppressed is skipped. -/
def fragCorrW (fT cT : Nat) (c : Ctx) (pp ms : Nat) : Ctx :=
  if (List.range 4).all (fun hh => (c.hands pp ms hh).suppressed) then c
  else
    let st2 := [1, 2, 3].foldl (corrHandStep c cT pp ms) (fragHand0 fT c pp ms, 0)
    let nHands := ((List.range 4).filter fun hh => !(st2.1 pp ms hh).suppressed).length
    { c with hands := st2.1,
             corrected := fun m => if m = ms then decide (1 < nHands) else c.corrected m }

/-- Iteration order of witnesses: parallels then witness indices. -/
def ppMsList (c : Ctx) : List (Nat × Nat) :=
  (List.range c.nParallels).flatMap fun pp =>
    (List.range c.nMSS).map fun ms => (pp, ms)

/-- The fragment and correction part of suppressTx, thresholds computed
once at entry. -/
def fragCorr (cfg : Cfg) (c : Ctx) : Ctx :=
  (ppMsList c).foldl
    (fun a pm => fragCorrW (fragThresh cfg c) (corrThresh cfg c) a pm.1 pm.2) c

/-- The year cutoff at the end of suppressTx: suppress every unsuppressed,
unmandated hand whose earliest date exceeds the configured year. -/
def yearSupp (cfg : Cfg) (c : Ctx) : Ctx :=
  match cfg.yearEnv with
  | none => c
  | some year =>
    { c with hands := fun p m h =>
        if p < c.nParallels ∧ m < c.nMSS ∧ h < 4
            ∧ (c.hands p m h).suppressed = false
            ∧ year < (c.hands p m h).earliest
            ∧ (c.hands p m h).mandated = false
        then { c.hands p m h with suppressed := true } else (c.hands p m h) }

/-- suppressTx of prep.c: fragment and correction suppression, then the
year cutoff inside the same pass. -/
def suppressTx (cfg : Cfg) (c : Ctx) : Ctx := yearSupp cfg (fragCorr cfg c)

/-- suppressId of prep.c: within each parallel, suppress hand 0 of a
witness when some earlier unsuppressed witness shares the identical
reading-set reference at every piece. -/
def suppressId (c : Ctx) : Ctx :=
  (ppMsList c).foldl (fun a pm =>
    if (a.hands pm.1 pm.2 0).suppressed then a
    else if (List.range pm.2).any (fun m2 =>
        !(a.hands pm.1 m2 0).suppressed &&
        (List.range a.nPiece).all (fun pc =>
          decide ((a.hands pm.1 pm.2 0).sets pc = (a.hands pm.1 m2 0).sets pc)))
    then { a with hands := suppressHand a.hands pm.1 pm.2 0 }
    else a) c

/-- The reduction pipeline as main runs it: mandate, constant variants,
fragment and correction with the year cutoff, constant variants again,
identical witnesses unless IDOK is set. -/
def pipeline (cfg : Cfg) (c : Ctx) : Ctx :=
  let c4 := suppressVr cfg.nosing (suppressTx cfg (suppressVr cfg.nosing (mandateTx c)))
  if cfg.idok then c4 else suppressId c4

/-- Modelled from the spec: the pipeline in the stated order 1 to 6, with
the year cutoff as the final step after identical-witness suppression and
after the second constant-variant pass. -/
def specOrderPipeline (cfg : Cfg) (c : Ctx) : Ctx :=
  let c4 := suppressVr cfg.nosing (fragCorr cfg (suppressVr cfg.nosing (mandateTx c)))
  yearSupp cfg (if cfg.idok then c4 else suppressId c4)

/-- The literary period table of litStratum. -/
def strattab : List Nat :=
  [100, 350, 450, 600, 775, 950, 1100, 1200, 1300, 1400, 1500, 1600, 9999]

/-- litStratum of prep.c: the year itself without granularity, rounded
buckets for a numeric granularity, the literary table for granularity -1.
The bucket value is an array index, nonnegative for the positive
granularities the program uses. -/
def litStratum (gran : Int) (year : Nat) : Nat :=
  if gran = 0 then year
  else if gran ≠ -1 then (((year : Int) + gran / 2) / gran).toNat
  else match strattab.findIdx? (fun b => decide (year ≤ b)) with
       | some st => st
       | none => strattab.length

/-- The strata marked by the first loop of stratify. -/
def markedList (gran : Int) (c : Ctx) : List Nat :=
  (handList c).foldl (fun acc t =>
    if (c.hands t.1 t.2.1 t.2.2).suppressed then acc
    else acc ++ [litStratum gran (c.hands t.1 t.2.1 t.2.2).average]) []

/-- Compaction rank of the second loop of stratify: the number of marked
strata strictly below yr. -/
def strataRank (gran : Int) (c : Ctx) (yr : Nat) : Nat :=
  ((List.range yr).filter fun y => decide (y ∈ markedList gran c)).length

/-- The first loop of stratify: assign litStratum of the average date to
every unsuppressed hand. -/
def stratPass1 (gran : Int) (c : Ctx) : Ctx :=
  { c with hands := fun p m h =>
      if p < c.nParallels ∧ m < c.nMSS ∧ h < 4 ∧ (c.hands p m h).suppressed = false
      then { c.hands p m h with stratum := litStratum gran (c.hands p m h).average }
      else (c.hands p m h) }

/-- stratify of prep.c: assign litStratum of the average date to every
unsuppressed hand; with granularity zero return there, otherwise compact
the marked strata to consecutive integers. -/
def stratify (gran : Int) (c : Ctx) : Ctx :=
  if gran = 0 then stratPass1 gran c
  else { stratPass1 gran c with hands := fun p m h =>
      if p < c.nParallels ∧ m < c.nMSS ∧ h < 4
          ∧ ((stratPass1 gran c).hands p m h).suppressed = false
      then { (stratPass1 gran c).hands p m h with
             stratum := strataRank gran c ((stratPass1 gran c).hands p m h).stratum }
      else ((stratPass1 gran c).hands p m h) }

/-- Macro level state of one parallel: the global creation counter and
the level of each existing macro. -/
structure MacEnv where
  macLevel : Nat
  levels : Char → Option Nat

/-- The macro part of initParallel: the all-witnesses macro takes the next
level from the counter, the unknown-reading macro the one after. -/
def initParMacs (e : MacEnv) : MacEnv :=
  { macLevel := e.macLevel + 2,
    levels := fun c => if c = '*' then some e.macLevel
              else if c = '?' then some (e.macLevel + 1) else e.levels c }

/-- The first-creation branch of doDefine: a new macro takes the next
level from the counter; an existing macro keeps its level. -/
def defineMacLevel (e : MacEnv) (c : Char) : MacEnv :=
  match e.levels c with
  | some _ => e
  | none => { macLevel := e.macLevel + 1,
              levels := fun x => if x = c then some e.macLevel else e.levels x }

/-- The macro level state after initContext sets the counter to 1. -/
def macEnv0 : MacEnv := { macLevel := 1, levels := fun _ => none }

/-- Levels after initParallel and the first user macro definition. -/
def macEnvA : MacEnv := defineMacLevel (initParMacs macEnv0) 'a'

/-- doEat of prep.c over a token stream: consume tokens until one starts
with a semicolon, fatally at end of input. -/
def doEatTok : List (List Char) → Stat × List (List Char)
  | [] => (Stat.FATAL, [])
  | t :: rest => if t.head? = some ';' then (Stat.OK, rest) else doEatTok rest

/-- The status variable after one arm of the main dispatch switch, given
the status the called handler returned. The arm for the plus command
lacks a break and falls through into the brace arm, so the status doEat
returned is overwritten with OK. -/
def switchStatus (c : Char) (handler : Stat) : Stat :=
  if c = '!' then Stat.END
  else if c = '*' ∨ c = '/' ∨ c = '=' ∨ c = '%' ∨ c = '@' ∨ c = '[' ∨ c = '<'
        ∨ c = '~' ∨ c = '^' ∨ c = '-' ∨ c = '"' then handler
  else if c = '+' then Stat.OK
  else if c = '{' ∨ c = '}' then Stat.OK
  else Stat.WARN

/-- The main token loop over command outcomes: dispatch each command, stop
at END or FATAL, count warnings, and keep the last status at end of
input. -/
def mainLoop : List (Char × Stat) → Stat → Nat → Stat × Nat
  | [], st, n => (st, n)
  | cs :: rest, _, n =>
    let st := switchStatus cs.1 cs.2
    if st = Stat.END ∨ st = Stat.FATAL then (st, n)
    else mainLoop rest st (if st = Stat.WARN then n + 1 else n)

/-- After the loop, the reduction pipeline and the output phase run only
without a fatal status and with zero warnings. -/
def pipelineRuns (r : Stat × Nat) : Bool :=
  decide (r.1 ≠ Stat.FATAL) && decide (r.2 = 0)

/-- The process exit code computed at the end of main. -/
def exitCode (r : Stat × Nat) : Int :=
  if r.1 ≠ Stat.OK ∧ r.1 ≠ Stat.END then -(statNum r.1) else (r.2 : Int)

/-- Weight resolution of the reading separator in doReadings, applied to
the characters after the bar: an empty suffix keeps the initial weight 1,
a star takes the number following it, otherwise the numeric edit-distance
score is mapped through the WEIGHBYED divisor, zero staying zero. -/
def barWeight (suffix : List Char) (weighByED : Nat) : Nat :=
  if suffix = [] then 1
  else if suffix.head? = some '*' then atoiNat (suffix.drop 1)
  else if atoiNat suffix = 0 then 0
  else if weighByED = 0 then 1
  else (atoiNat suffix - 1) / weighByED + 1

/-- Modelled from the spec: half of w rounded up. -/
def ceilHalf (w : Nat) : Nat := (w + 1) / 2

/-- Modelled from the spec: one tenth of w rounded up. -/
def ceilTenth (w : Nat) : Nat := (w + 9) / 10

/-- Resolution of the claim that a subset token names one specific hand:
the token is not a macro and findMSS resolves it to that witness and
hand. -/
def namesHand (names : List (List Char)) (tok : List Char) (ms hh : Nat) : Prop :=
  tok.head? ≠ some '$' ∧ findMSS names tok = FindR.found ms hh

instance (names : List (List Char)) (tok : List Char) (ms hh : Nat) :
    Decidable (namesHand names tok ms hh) := by
  unfold namesHand
  infer_instance

/-- Invariant of the state-counting loop: the key list has no duplicates
and holds exactly the states seen so far, the count function agrees with
the multiplicities among the seen states, and the double counter is the
number of keys counted at least twice. -/
def TallyInv (seen : List Char) (acc : List Char × (Char → Nat) × Nat) : Prop :=
  acc.1.Nodup
  ∧ (∀ ch, ch ∈ acc.1 ↔ ch ∈ seen)
  ∧ (∀ ch ∈ acc.1, acc.2.1 ch = seen.count ch)
  ∧ acc.2.2 = (acc.1.filter fun ch => decide (2 ≤ acc.2.1 ch)).length

/-- Preservation relative to a base context: mandate flags are unchanged
everywhere and the suppressed flag of every mandated hand is unchanged. -/
def MandPres (c0 : Ctx) (hs : Hands) : Prop :=
  ∀ p m k, (hs p m k).mandated = (c0.hands p m k).mandated
    ∧ ((c0.hands p m k).mandated = true → (hs p m k).suppressed = (c0.hands p m k).suppressed)

/-- Configuration without overrides and with a cutoff year of 300. -/
def cfgC1 : Cfg :=
  { fragEnv := none, corrEnv := none, yearEnv := some 300, nosing := false, idok := false }

/-- A default hand: no readings, no flags set. -/
def baseHand : Hand :=
  { sets := fun _ => none, earliest := 0, average := 0, latest := 2147483647,
    stratum := 0, suppressed := false, mandated := false, lastHand := 0 }

/-- A suppressed default hand. -/
def supHand : Hand := { baseHand with suppressed := true }

/-- Two witnesses sharing the identical reading-set reference at the only
piece, the later one mandated. -/
def ctxC1 : Ctx :=
  { nParallels := 1, nMSS := 2, parallel := 0, nPiece := 1,
    pieceUnits := fun _ => 1,
    hands := fun pp ms hh =>
      if pp = 0 ∧ hh = 0 ∧ ms < 2 then
        (if ms = 1 then { baseHand with sets := fun _ => some 0, mandated := true }
         else { baseHand with sets := fun _ => some 0 })
      else supHand,
    heap := fun _ => ['a'],
    nVar := 1, wgts := fun _ => 1, wvar := 1, root := false,
    macs := fun _ => none, mssNames := [['A'], ['B']], subset := [],
    corrected := fun _ => false }

/-- Configuration for the year-order check: thresholds disabled, cutoff
year 400, identical-witness suppression skipped. -/
def cfgC2 : Cfg :=
  { fragEnv := some 0, corrEnv := some 1000, yearEnv := some 400,
    nosing := false, idok := true }

/-- Two witnesses with distinct states at the only unit; the second has
earliest date 500, beyond the cutoff year 400. -/
def ctxC2 : Ctx :=
  { nParallels := 1, nMSS := 2, parallel := 0, nPiece := 1,
    pieceUnits := fun _ => 1,
    hands := fun pp ms hh =>
      if pp = 0 ∧ hh = 0 ∧ ms < 2 then
        (if ms = 1 then { baseHand with sets := fun _ => some 1, earliest := 500 }
         else { baseHand with sets := fun _ => some 0, earliest := 100 })
      else supHand,
    heap := fun rr => if rr = 0 then ['a'] else ['b'],
    nVar := 1, wgts := fun _ => 1, wvar := 1, root := false,
    macs := fun _ => none, mssNames := [['A'], ['B']], subset := [],
    corrected := fun _ => false }

/-- Configuration for the unresolved-mandate check: thresholds disabled,
no year cutoff, identical-witness suppression skipped. -/
def cfgC3 : Cfg :=
  { fragEnv := some 0, corrEnv := some 1000, yearEnv := none,
    nosing := false, idok := true }

/-- Two witnesses agreeing at the only unit, with an unknown name in the
command-line subset. -/
def ctxC3 : Ctx :=
  { nParallels := 1, nMSS := 2, parallel := 0, nPiece := 1,
    pieceUnits := fun _ => 1,
    hands := fun pp ms hh =>
      if pp = 0 ∧ hh = 0 ∧ ms < 2 then { baseHand with sets := fun _ => some 0 }
      else supHand,
    heap := fun _ => ['a'],
    nVar := 1, wgts := fun _ => 1, wvar := 1, root := false,
    macs := fun _ => none, mssNames := [['A'], ['B']], subset := [['X']],
    corrected := fun _ => false }

/-- One witness attesting one state at the only unit: a constant unit. -/
def ctxC4 : Ctx :=
  { nParallels := 1, nMSS := 1, parallel := 0, nPiece := 1,
    pieceUnits := fun _ => 1,
    hands := fun pp ms hh =>
      if pp = 0 ∧ ms = 0 ∧ hh = 0 then { baseHand with sets := fun _ => some 0 }
      else supHand,
    heap := fun _ => ['a'],
    nVar := 1, wgts := fun _ => 1, wvar := 1, root := false,
    macs := fun _ => none, mssNames := [['A']], subset := [],
    corrected := fun _ => false }

/-- Two unsuppressed hands with average dates 150 and 400. -/
def ctxC6 : Ctx :=
  { nParallels := 1, nMSS := 2, parallel := 0, nPiece := 1,
    pieceUnits := fun _ => 1,
    hands := fun pp ms hh =>
      if pp = 0 ∧ hh = 0 ∧ ms < 2 then
        (if ms = 1 then { baseHand with average := 400 }
         else { baseHand with average := 150 })
      else supHand,
    heap := fun _ => [],
    nVar := 1, wgts := fun _ => 1, wvar := 1, root := false,
    macs := fun _ => none, mssNames := [['A'], ['B']], subset := [],
    corrected := fun _ => false }

/-- Configuration without threshold overrides. -/
def cfgC7 : Cfg :=
  { fragEnv := none, corrEnv := none, yearEnv := none, nosing := false, idok := false }

/-- A context with weighted total 10 and a single unit. -/
def ctxC7 : Ctx :=
  { nParallels := 1, nMSS := 1, parallel := 0, nPiece := 1,
    pieceUnits := fun _ => 1,
    hands := fun _ _ _ => supHand,
    heap := fun _ => [],
    nVar := 1, wgts := fun _ => 10, wvar := 10, root := false,
    macs := fun _ => none, mssNames := [['A']], subset := [],
    corrected := fun _ => false }

/-- Two witnesses, a macro over both on the command line. -/
def ctxC10 : Ctx :=
  { nParallels := 1, nMSS := 2, parallel := 0, nPiece := 1,
    pieceUnits := fun _ => 1,
    hands := fun _ _ _ => baseHand,
    heap := fun _ => ['a'],
    nVar := 1, wgts := fun _ => 1, wvar := 1, root := false,
    macs := fun ch => if ch = 'm'
      then some { level := 3, inset := fun ms => decide (ms < 2) } else none,
    mssNames := [['A'], ['B']], subset := [['$', 'm']],
    corrected := fun _ => false }

/-- A predicate preserved by every step of a left fold is preserved by the
whole fold. -/
theorem foldlPreserve {α β : Type _} (P : α → Prop) (f : α → β → α) (l : List β) :
    (∀ x b, b ∈ l → P x → P (f x b)) → ∀ a, P a → P (l.foldl f a) := by
  induction l with
  | nil => intro _ a ha; exact ha
  | cons b t ih =>
    intro hstep a ha
    simp only [List.foldl_cons]
    exact ih (fun x c hc hx => hstep x c (List.mem_cons_of_mem _ hc) hx) _
      (hstep a b (List.mem_cons_self _ _) ha)

/-- Index lookup into an index-paired list. -/
theorem withIdx_get? {α : Type} (l : List α) :
    ∀ (i j : Nat), (withIdx l i).get? j = (l.get? j).map fun a => (i + j, a) := by
  induction l with
  | nil => intro i j; simp [withIdx]
  | cons a t ih =>
    intro i j
    cases j with
    | zero => simp [withIdx]
    | succ k =>
      have h : i + (k + 1) = (i + 1) + k := by omega
      simp only [withIdx, List.get?_cons_succ, h]
      exact ih (i + 1) k

/-- Membership in an index-paired list determines the entry by its index. -/
theorem mem_withIdx {α : Type} (l : List α) :
    ∀ (i : Nat) (p : Nat × α), p ∈ withIdx l i → i ≤ p.1 ∧ l.get? (p.1 - i) = some p.2 := by
  induction l with
  | nil => intro i p hp; simp [withIdx] at hp
  | cons a t ih =>
    intro i p hp
    simp only [withIdx, List.mem_cons] at hp
    rcases hp with h | h
    · subst h; simp
    · obtain ⟨h1, h2⟩ := ih (i + 1) p h
      refine ⟨by omega, ?_⟩
      have hd : p.1 - i = (p.1 - (i + 1)) + 1 := by omega
      rw [hd, List.get?_cons_succ]
      exact h2

/-- The indices of an index-paired list have no duplicates. -/
theorem withIdx_nodup_fst {α : Type} (l : List α) :
    ∀ i, ((withIdx l i).map Prod.fst).Nodup := by
  induction l with
  | nil => intro i; simp [withIdx]
  | cons a t ih =>
    intro i
    simp only [withIdx, List.map_cons, List.nodup_cons]
    refine ⟨?_, ih (i + 1)⟩
    intro hmem
    simp only [List.mem_map] at hmem
    obtain ⟨p, hp, he⟩ := hmem
    have := (mem_withIdx t (i + 1) p hp).1
    omega

/-- An element of an index-paired list. -/
theorem withIdx_mem_of_get? {α : Type} (l : List α) (v : Nat) (a : α)
    (h : l.get? v = some a) : (v, a) ∈ withIdx l 0 := by
  have h2 := withIdx_get? l 0 v
  rw [h] at h2
  simp only [Option.map_some', Nat.zero_add] at h2
  exact List.get?_mem h2

/-- Count of one element in a singleton list. -/
theorem countSingle (x ch : Char) : List.count x [ch] = if x = ch then 1 else 0 := by
  by_cases h : x = ch
  · subst h; simp
  · rw [if_neg h, List.count_eq_zero]
    simp [h]

/-- Filter length grows by one when the predicate flips to true at one
list element and is unchanged elsewhere. -/
theorem filterLengthSucc (p q : Char → Bool) :
    ∀ (keys : List Char), keys.Nodup → ∀ ch, ch ∈ keys → p ch = false → q ch = true →
      (∀ x, x ≠ ch → p x = q x) → (keys.filter q).length = (keys.filter p).length + 1 := by
  intro keys
  induction keys with
  | nil => intro _ ch hch _ _ _; exact absurd hch (List.not_mem_nil ch)
  | cons a t ih =>
    intro hnd ch hch hp hq hpq
    rw [List.nodup_cons] at hnd
    rcases List.mem_cons.1 hch with rfl | hcht
    · have hfil : t.filter p = t.filter q :=
        List.filter_congr (fun x hx => hpq x (fun he => hnd.1 (he ▸ hx)))
      simp only [List.filter_cons, hq, hp, if_true, if_false, Bool.false_eq_true]
      rw [hfil]
      simp
    · have hne : a ≠ ch := fun he => hnd.1 (he ▸ hcht)
      have hpa : p a = q a := hpq a hne
      have hih := ih hnd.2 ch hcht hp hq hpq
      cases hqa : q a with
      | true =>
        simp only [List.filter_cons, hqa, hpa.trans hqa, if_true, List.length_cons]
        rw [hih]
      | false =>
        simp only [List.filter_cons, hqa, hpa.trans hqa, Bool.false_eq_true, if_false]
        exact hih

/-- One tally step maintains the invariant. -/
theorem tallyStepInv (seen : List Char) (acc : List Char × (Char → Nat) × Nat) (ch : Char)
    (h : TallyInv seen acc) : TallyInv (seen ++ [ch]) (tallyStep acc ch) := by
  unfold TallyInv at h ⊢
  obtain ⟨hnd, hmem, hcnt, hdbl⟩ := h
  unfold tallyStep
  by_cases hin : ch ∈ acc.1
  · rw [if_pos hin]
    refine ⟨hnd, ?_, ?_, ?_⟩
    · intro x
      simp only [List.mem_append, List.mem_singleton]
      constructor
      · intro hx; exact Or.inl ((hmem x).1 hx)
      · rintro (hx | rfl)
        · exact (hmem x).2 hx
        · exact hin
    · intro x hx
      dsimp only
      rw [List.count_append, countSingle]
      by_cases hxch : x = ch
      · subst hxch; rw [if_pos rfl, if_pos rfl, hcnt x hx]
      · rw [if_neg hxch, if_neg hxch, hcnt x hx]
        omega
    · dsimp only
      have hge1 : 1 ≤ acc.2.1 ch := by
        rw [hcnt ch hin]
        exact List.count_pos_iff.2 ((hmem ch).1 hin)
      by_cases h2 : acc.2.1 ch + 1 = 2
      · rw [if_pos h2, hdbl]
        symm
        apply filterLengthSucc (fun x => decide (2 ≤ acc.2.1 x))
          (fun x => decide (2 ≤ if x = ch then acc.2.1 ch + 1 else acc.2.1 x))
          acc.1 hnd ch hin
        · have hc1 : acc.2.1 ch = 1 := by omega
          simp [hc1]
        · simp [h2]
        · intro x hxne
          simp [hxne]
      · rw [if_neg h2, hdbl]
        apply congrArg List.length
        apply List.filter_congr
        intro x hx
        by_cases hxch : x = ch
        · subst hxch
          have hc2 : 2 ≤ acc.2.1 x := by omega
          simp only [if_pos rfl]
          simp [hc2]
          omega
        · simp [hxch]
  · rw [if_neg hin]
    refine ⟨?_, ?_, ?_, ?_⟩
    · rw [List.nodup_append]
      refine ⟨hnd, List.nodup_singleton ch, ?_⟩
      intro x hx hx2
      rw [List.mem_singleton] at hx2
      subst hx2; exact hin hx
    · intro x
      simp only [List.mem_append, List.mem_singleton]
      constructor
      · rintro (hx | rfl)
        · exact Or.inl ((hmem x).1 hx)
        · exact Or.inr rfl
      · rintro (hx | rfl)
        · exact Or.inl ((hmem x).2 hx)
        · exact Or.inr rfl
    · intro x hx
      dsimp only
      rw [List.count_append, countSingle]
      rcases List.mem_append.1 hx with hxa | hxs
      · have hxch : x ≠ ch := fun he => hin (he ▸ hxa)
        rw [if_neg hxch, if_neg hxch, hcnt x hxa]
        omega
      · rw [List.mem_singleton] at hxs
        subst hxs
        rw [if_pos rfl, if_pos rfl]
        have h0 : seen.count x = 0 := by
          rw [List.count_eq_zero]
          exact fun hs => hin ((hmem x).2 hs)
        omega
    · dsimp only
      rw [List.filter_append]
      have hone : (List.filter (fun x => decide (2 ≤ if x = ch then 1 else acc.2.1 x)) [ch]) = [] := by
        simp
      have hfc : acc.1.filter (fun x => decide (2 ≤ if x = ch then 1 else acc.2.1 x))
               = acc.1.filter (fun x => decide (2 ≤ acc.2.1 x)) := by
        apply List.filter_congr
        intro x hx
        have hxch : x ≠ ch := fun he => hin (he ▸ hx)
        rw [if_neg hxch]
      rw [hone, hfc, List.append_nil]
      exact hdbl

/-- The tally invariant is maintained by the whole fold. -/
theorem tallyFoldInv (l : List Char) :
    ∀ seen acc, TallyInv seen acc → TallyInv (seen ++ l) (l.foldl tallyStep acc) := by
  induction l with
  | nil => intro seen acc h; simpa using h
  | cons c t ih =>
    intro seen acc h
    have h3 := ih (seen ++ [c]) (tallyStep acc c) (tallyStepInv seen acc c h)
    rw [List.append_assoc] at h3
    simpa using h3

/-- The empty tally satisfies the invariant. -/
theorem tallyInit : TallyInv [] ([], fun _ => 0, 0) := by
  unfold TallyInv
  refine ⟨List.nodup_nil, by simp, by simp, by simp⟩

/-- The state tally computes the number of distinct states and the number
of states attested at least twice. -/
theorem tallySpec (l : List Char) :
    (l.foldl tallyStep ([], fun _ => 0, 0)).1.length = l.toFinset.card
    ∧ (l.foldl tallyStep ([], fun _ => 0, 0)).2.2
      = Finset.card (l.toFinset.filter fun ch => 2 ≤ l.count ch) := by
  have h := tallyFoldInv l [] ([], fun _ => 0, 0) tallyInit
  rw [List.nil_append] at h
  unfold TallyInv at h
  obtain ⟨hnd, hmem, hcnt, hdbl⟩ := h
  constructor
  · have hts : (l.foldl tallyStep ([], fun _ => 0, 0)).1.toFinset = l.toFinset := by
      ext x
      simp only [List.mem_toFinset]
      exact hmem x
    rw [← List.toFinset_card_of_nodup hnd, hts]
  · rw [hdbl]
    have hfc : (l.foldl tallyStep ([], fun _ => 0, 0)).1.filter
          (fun ch => decide (2 ≤ (l.foldl tallyStep ([], fun _ => 0, 0)).2.1 ch))
        = (l.foldl tallyStep ([], fun _ => 0, 0)).1.filter (fun ch => decide (2 ≤ l.count ch)) :=
      List.filter_congr (fun x hx => by rw [hcnt x hx])
    rw [hfc, ← List.toFinset_card_of_nodup (hnd.filter _), List.toFinset_filter]
    congr 1
    ext x
    simp only [Finset.mem_filter, List.mem_toFinset, decide_eq_true_eq]
    constructor
    · rintro ⟨h1, h2⟩; exact ⟨(hmem x).1 h1, h2⟩
    · rintro ⟨h1, h2⟩; exact ⟨(hmem x).2 h1, h2⟩

/-- The elimination test of the code equals the elimination test in the
words of the specification. -/
theorem elimEqSpec (n : Bool) (c : Ctx) (pc pv : Nat) :
    elimUnit n c pc pv = specConstB n c pc pv := by
  unfold elimUnit specConstB unitTally
  obtain ⟨h1, h2⟩ := tallySpec (unitStates c pc pv)
  rw [h1, h2]

/-- A suppressVr unit step leaves the hand grid unchanged. -/
theorem vrStep_hands (n : Bool) (c : Ctx) (vu : Nat × Nat × Nat) :
    (vrStep n c vu).hands = c.hands := by
  unfold vrStep; split <;> rfl

/-- A suppressVr unit step leaves the elimination test unchanged. -/
theorem vrStep_elim (n : Bool) (c : Ctx) (vu : Nat × Nat × Nat) (pc pv : Nat) :
    elimUnit n (vrStep n c vu) pc pv = elimUnit n c pc pv := by
  unfold vrStep; split <;> rfl

/-- Weights after an eliminating unit step. -/
theorem vrStep_wgts_true (n : Bool) (c : Ctx) (vu : Nat × Nat × Nat)
    (he : elimUnit n c vu.2.1 vu.2.2 = true) :
    ∀ v, (vrStep n c vu).wgts v = if v = vu.1 then 0 else c.wgts v := by
  intro v; unfold vrStep; rw [if_pos he]

/-- Weighted total after an eliminating unit step. -/
theorem vrStep_wvar_true (n : Bool) (c : Ctx) (vu : Nat × Nat × Nat)
    (he : elimUnit n c vu.2.1 vu.2.2 = true) :
    (vrStep n c vu).wvar = c.wvar - c.wgts vu.1 := by
  unfold vrStep; rw [if_pos he]

/-- A non-eliminating unit step does nothing. -/
theorem vrStep_false (n : Bool) (c : Ctx) (vu : Nat × Nat × Nat)
    (he : elimUnit n c vu.2.1 vu.2.2 = false) : vrStep n c vu = c := by
  unfold vrStep
  rw [he]
  simp

/-- The suppressVr fold: the hand grid is unchanged, each weight is zeroed
exactly when some entry eliminates its unit, and the weighted total
shrinks by the weights of the eliminated entries. -/
theorem vrFold (n : Bool) (L : List (Nat × Nat × Nat)) :
    ∀ (c : Ctx), (L.map Prod.fst).Nodup →
      ((L.foldl (vrStep n) c).hands = c.hands
      ∧ (∀ v : Nat, (L.foldl (vrStep n) c).wgts v =
          if L.any (fun vu => decide (vu.1 = v) && elimUnit n c vu.2.1 vu.2.2) then 0
          else c.wgts v)
      ∧ (L.foldl (vrStep n) c).wvar =
          c.wvar - ((L.filter fun vu => elimUnit n c vu.2.1 vu.2.2).map
            fun vu => c.wgts vu.1).sum) := by
  induction L with
  | nil =>
    intro c _
    refine ⟨rfl, fun v => by simp, by simp⟩
  | cons vu t ih =>
    intro c hnd
    rw [List.map_cons, List.nodup_cons] at hnd
    obtain ⟨hvu, hndt⟩ := hnd
    rw [List.foldl_cons]
    have hhands : (vrStep n c vu).hands = c.hands := vrStep_hands n c vu
    have helim : ∀ pc pv, elimUnit n (vrStep n c vu) pc pv = elimUnit n c pc pv :=
      vrStep_elim n c vu
    obtain ⟨ihh, ihw, ihv⟩ := ih (vrStep n c vu) hndt
    refine ⟨ihh.trans hhands, ?_, ?_⟩
    · intro v
      rw [ihw v, List.any_cons]
      simp only [helim]
      by_cases he : elimUnit n c vu.2.1 vu.2.2 = true
      · by_cases hv : vu.1 = v
        · subst hv
          have hw0 : (vrStep n c vu).wgts vu.1 = 0 := by
            rw [vrStep_wgts_true n c vu he, if_pos rfl]
          have hhead : (decide (vu.1 = vu.1) && elimUnit n c vu.2.1 vu.2.2) = true := by
            simp [he]
          rw [hw0, hhead]
          simp
        · have hwv : (vrStep n c vu).wgts v = c.wgts v := by
            rw [vrStep_wgts_true n c vu he, if_neg (fun h2 => hv h2.symm)]
          have hhead : (decide (vu.1 = v) && elimUnit n c vu.2.1 vu.2.2) = false := by
            simp [hv]
          rw [hwv, hhead]
          rfl
      · have hef : elimUnit n c vu.2.1 vu.2.2 = false := by
          cases hx : elimUnit n c vu.2.1 vu.2.2
          · rfl
          · exact absurd hx he
        rw [vrStep_false n c vu hef, hef]
        simp only [Bool.and_false, Bool.false_or]
    · rw [ihv]
      simp only [helim]
      by_cases he : elimUnit n c vu.2.1 vu.2.2 = true
      · rw [List.filter_cons]
        rw [if_pos he, List.map_cons, List.sum_cons]
        have hmap : (t.filter (fun x => elimUnit n c x.2.1 x.2.2)).map
              (fun x => (vrStep n c vu).wgts x.1)
            = (t.filter (fun x => elimUnit n c x.2.1 x.2.2)).map (fun x => c.wgts x.1) := by
          apply List.map_congr_left
          intro x hxf
          have hxt : x ∈ t := List.mem_of_mem_filter hxf
          have hx1 : x.1 ∈ t.map Prod.fst := List.mem_map_of_mem _ hxt
          have hne : x.1 ≠ vu.1 := fun hh2 => hvu (hh2 ▸ hx1)
          rw [vrStep_wgts_true n c vu he, if_neg hne]
        rw [vrStep_wvar_true n c vu he, hmap, Nat.sub_sub]
      · have hef : elimUnit n c vu.2.1 vu.2.2 = false := by
          cases hx : elimUnit n c vu.2.1 vu.2.2
          · rfl
          · exact absurd hx he
        rw [vrStep_false n c vu hef, List.filter_cons, hef]
        simp

/-- Claim C4: a constant-variant pass zeroes the weight of an elementary
unit and subtracts its old weight from the running weighted total exactly
when the number of distinct non-missing states attested among surviving
hands (reading unset cells of hands with index above 0 through the
lastHand link, and the default character for the designated root cell) is
at most 1, or, in singleton mode, when fewer than 2 states are each
attested by at least 2 hands; afterwards no unit of non-zero weight
satisfies the elimination condition, and the weighted total has shrunk by
the total eliminated weight. -/
theorem c4_constant_variant_suppression (c : Ctx) (n : Bool) (v pc pv : Nat)
    (h : (unitList c).get? v = some (pc, pv)) :
    ((suppressVr n c).wgts v = if specConstB n c pc pv then 0 else c.wgts v)
    ∧ ((suppressVr n c).wgts v ≠ 0 → specConstB n c pc pv = false)
    ∧ (suppressVr n c).wvar = c.wvar - elimTotal n c := by
  obtain ⟨hh, hw, hv⟩ := vrFold n (withIdx (unitList c) 0) c (withIdx_nodup_fst (unitList c) 0)
  have hmem : (v, (pc, pv)) ∈ withIdx (unitList c) 0 :=
    withIdx_mem_of_get? (unitList c) v (pc, pv) h
  have hany : (withIdx (unitList c) 0).any
      (fun vu => decide (vu.1 = v) && elimUnit n c vu.2.1 vu.2.2) = elimUnit n c pc pv := by
    cases hel : elimUnit n c pc pv with
    | true =>
      apply List.any_eq_true.2
      exact ⟨(v, (pc, pv)), hmem, by simp [hel]⟩
    | false =>
      rw [List.any_eq_false]
      intro x hx
      simp only [Bool.and_eq_true, decide_eq_true_eq, not_and]
      intro hx1 helx
      obtain ⟨_, hg⟩ := mem_withIdx (unitList c) 0 x hx
      rw [Nat.sub_zero, hx1, h] at hg
      have hx2 : x.2 = (pc, pv) := (Option.some.inj hg).symm
      rw [hx2] at helx
      dsimp only at helx
      rw [hel] at helx
      exact absurd helx (by simp)
  have h1 : (suppressVr n c).wgts v = if specConstB n c pc pv then 0 else c.wgts v := by
    unfold suppressVr
    rw [hw v, hany, elimEqSpec]
  refine ⟨h1, ?_, ?_⟩
  · intro hnz
    cases hb : specConstB n c pc pv with
    | false => rfl
    | true => exact absurd (h1.trans (by rw [hb]; simp)) hnz
  · unfold suppressVr elimTotal
    rw [hv, List.filter_congr (fun x _ => elimEqSpec n c x.2.1 x.2.2)]

/-- A hand update that keeps the mandated field keeps it at every point. -/
theorem updHand_mandated (hs : Hands) (pp ms hh : Nat) (f : Hand → Hand)
    (hf : ∀ x, (f x).mandated = x.mandated) :
    ∀ p m k, ((updHand hs pp ms hh f) p m k).mandated = (hs p m k).mandated := by
  intro p m k
  unfold updHand
  split
  · exact hf _
  · rfl

/-- A hand update that keeps the suppressed field keeps it at every point. -/
theorem updHand_suppressed (hs : Hands) (pp ms hh : Nat) (f : Hand → Hand)
    (hf : ∀ x, (f x).suppressed = x.suppressed) :
    ∀ p m k, ((updHand hs pp ms hh f) p m k).suppressed = (hs p m k).suppressed := by
  intro p m k
  unfold updHand
  split
  · exact hf _
  · rfl

/-- Suppressing a hand keeps every mandate flag. -/
theorem suppressHand_mandated (hs : Hands) (pp ms hh : Nat) :
    ∀ p m k, ((suppressHand hs pp ms hh) p m k).mandated = (hs p m k).mandated :=
  updHand_mandated hs pp ms hh _ (fun _ => rfl)

/-- Suppressing a hand keeps the suppressed flag of every other point. -/
theorem suppressHand_suppressed_ne (hs : Hands) (pp ms hh p m k : Nat)
    (hne : ¬(p = pp ∧ m = ms ∧ k = hh)) :
    ((suppressHand hs pp ms hh) p m k).suppressed = (hs p m k).suppressed := by
  unfold suppressHand updHand
  rw [if_neg hne]

/-- A corrector diff step only changes reading sets, never the mandate or
suppressed flags. -/
theorem corrStep_proj (c : Ctx) (pp ms hh lh : Nat) (st : Hands × Nat × Nat) (pc : Nat) :
    ∀ p m k, (((corrStep c pp ms hh lh st pc).1 p m k).mandated = (st.1 p m k).mandated)
      ∧ (((corrStep c pp ms hh lh st pc).1 p m k).suppressed = (st.1 p m k).suppressed) := by
  intro p m k
  unfold corrStep
  cases hse : (st.1 pp ms hh).sets pc with
  | none =>
    constructor
    · exact updHand_mandated st.1 pp ms hh
        (fun x => { x with sets := fun q => if q = pc then (st.1 pp ms lh).sets pc else x.sets q })
        (fun _ => rfl) p m k
    · exact updHand_suppressed st.1 pp ms hh
        (fun x => { x with sets := fun q => if q = pc then (st.1 pp ms lh).sets pc else x.sets q })
        (fun _ => rfl) p m k
  | some rr => exact ⟨rfl, rfl⟩

/-- The whole corrector diff loop keeps the mandate and suppressed flags. -/
theorem corrPieces_proj (c : Ctx) (hs : Hands) (pp ms hh lh : Nat) :
    ∀ p m k, (((corrPieces c hs pp ms hh lh).1 p m k).mandated = (hs p m k).mandated)
      ∧ (((corrPieces c hs pp ms hh lh).1 p m k).suppressed = (hs p m k).suppressed) := by
  intro p m k
  unfold corrPieces
  exact foldlPreserve (fun (st : Hands × Nat × Nat) =>
      ((st.1 p m k).mandated = (hs p m k).mandated)
      ∧ ((st.1 p m k).suppressed = (hs p m k).suppressed))
    (corrStep c pp ms hh lh) (List.range c.nPiece)
    (fun st pc _ hP => by
      obtain ⟨h1, h2⟩ := corrStep_proj c pp ms hh lh st pc p m k
      exact ⟨h1.trans hP.1, h2.trans hP.2⟩)
    (hs, 0, 0) ⟨rfl, rfl⟩

/-- A corrector hand step unfolded. -/
theorem corrHandStep_eq (c : Ctx) (cT pp ms : Nat) (st : Hands × Nat) (hh : Nat) :
    corrHandStep c cT pp ms st hh
      = if (corrPieces c st.1 pp ms hh st.2).2 < cT
           ∧ ((corrPieces c st.1 pp ms hh st.2).1 pp ms hh).mandated = false
        then (suppressHand (corrPieces c st.1 pp ms hh st.2).1 pp ms hh, st.2)
        else (updHand (corrPieces c st.1 pp ms hh st.2).1 pp ms hh
          (fun x => { x with lastHand := st.2 }), hh) := rfl

/-- A corrector hand step preserves mandate flags and the suppressed flag
of every mandated hand. -/
theorem corrHandStep_pres (c : Ctx) (cT pp ms : Nat) (c0 : Ctx) (st : Hands × Nat) (hh : Nat)
    (h : MandPres c0 st.1) : MandPres c0 (corrHandStep c cT pp ms st hh).1 := by
  rw [corrHandStep_eq]
  intro p m k
  have hcp := corrPieces_proj c st.1 pp ms hh st.2 p m k
  split
  · rename_i hcond
    constructor
    · exact (suppressHand_mandated _ pp ms hh p m k).trans (hcp.1.trans (h p m k).1)
    · intro hmd
      by_cases hpt : p = pp ∧ m = ms ∧ k = hh
      · exfalso
        obtain ⟨hp, hm2, hk⟩ := hpt
        subst hp; subst hm2; subst hk
        have hman : ((corrPieces c st.1 p m k st.2).1 p m k).mandated = true :=
          hcp.1.trans ((h p m k).1.trans hmd)
        rw [hcond.2] at hman
        exact absurd hman (by simp)
      · rw [suppressHand_suppressed_ne _ pp ms hh p m k hpt]
        exact hcp.2.trans ((h p m k).2 hmd)
  · constructor
    · exact (updHand_mandated _ pp ms hh (fun x => { x with lastHand := st.2 })
        (fun _ => rfl) p m k).trans (hcp.1.trans (h p m k).1)
    · intro hmd
      exact (updHand_suppressed _ pp ms hh (fun x => { x with lastHand := st.2 })
        (fun _ => rfl) p m k).trans (hcp.2.trans ((h p m k).2 hmd))

/-- The hand grid a witness step of suppressTx produces. -/
theorem fragCorrW_hands (fT cT : Nat) (c : Ctx) (pp ms : Nat) :
    (fragCorrW fT cT c pp ms).hands
      = if (List.range 4).all (fun hh => (c.hands pp ms hh).suppressed) then c.hands
        else ([1, 2, 3].foldl (corrHandStep c cT pp ms) (fragHand0 fT c pp ms, 0)).1 := by
  unfold fragCorrW
  split
  · rfl
  · rfl

/-- The fragment check preserves mandate flags and the suppressed flag of
every mandated hand. -/
theorem fragHand0_pres (fT : Nat) (c0 c : Ctx) (pp ms : Nat)
    (hm : MandPres c0 c.hands) : MandPres c0 (fragHand0 fT c pp ms) := by
  unfold fragHand0
  split
  · rename_i hcond
    intro p m k
    constructor
    · exact (suppressHand_mandated c.hands pp ms 0 p m k).trans (hm p m k).1
    · intro hmd
      by_cases hpt : p = pp ∧ m = ms ∧ k = 0
      · exfalso
        obtain ⟨hp, hm2, hk⟩ := hpt
        subst hp; subst hm2; subst hk
        have hx := (hm p m 0).1.trans hmd
        rw [hcond.2.2] at hx
        exact absurd hx (by simp)
      · rw [suppressHand_suppressed_ne c.hands pp ms 0 p m k hpt]
        exact (hm p m k).2 hmd
  · exact hm

/-- A witness step of suppressTx preserves mandate flags and the
suppressed flag of every mandated hand. -/
theorem fragCorrW_pres (fT cT : Nat) (c0 c : Ctx) (pp ms : Nat)
    (hm : MandPres c0 c.hands) : MandPres c0 (fragCorrW fT cT c pp ms).hands := by
  rw [fragCorrW_hands]
  split
  · exact hm
  · exact foldlPreserve (fun (st : Hands × Nat) => MandPres c0 st.1)
      (corrHandStep c cT pp ms) [1, 2, 3]
      (fun st hh2 _ hP => corrHandStep_pres c cT pp ms c0 st hh2 hP)
      (fragHand0 fT c pp ms, 0) (fragHand0_pres fT c0 c pp ms hm)

/-- The fragment and correction pass preserves mandate flags and the
suppressed flag of every mandated hand. -/
theorem fragCorr_pres (cfg : Cfg) (c0 c : Ctx) (hm : MandPres c0 c.hands) :
    MandPres c0 (fragCorr cfg c).hands := by
  unfold fragCorr
  exact foldlPreserve (fun a => MandPres c0 a.hands)
    (fun a pm => fragCorrW (fragThresh cfg c) (corrThresh cfg c) a pm.1 pm.2) (ppMsList c)
    (fun a pm _ hP => fragCorrW_pres (fragThresh cfg c) (corrThresh cfg c) c0 a pm.1 pm.2 hP)
    c hm

/-- The year cutoff preserves mandate flags and the suppressed flag of
every mandated hand. -/
theorem yearSupp_pres (cfg : Cfg) (c0 c : Ctx) (hm : MandPres c0 c.hands) :
    MandPres c0 (yearSupp cfg c).hands := by
  unfold yearSupp
  cases hy : cfg.yearEnv with
  | none => exact hm
  | some year =>
    intro p m k
    dsimp only
    constructor
    · split
      · exact (hm p m k).1
      · exact (hm p m k).1
    · intro hmd
      split
      · rename_i hcond
        exfalso
        have hx := (hm p m k).1.trans hmd
        rw [hcond.2.2.2.2.2] at hx
        exact absurd hx (by simp)
      · exact (hm p m k).2 hmd

/-- Claim C1 (amended): a hand whose mandated flag is set never has its
suppressed flag changed by suppressTx, that is by the fragment pass, the
correction pass, or the year-cutoff pass. The identical-witness pass does
not check the mandated flag and can suppress a mandated hand, as the
separate counterexample shows. -/
theorem c1_mandated_survives_suppressTx (cfg : Cfg) (c : Ctx) (pp ms hh : Nat)
    (hm : (c.hands pp ms hh).mandated = true) :
    ((suppressTx cfg c).hands pp ms hh).suppressed = (c.hands pp ms hh).suppressed := by
  have h0 : MandPres c c.hands := fun p m k => ⟨rfl, fun _ => rfl⟩
  have h2 : MandPres c (suppressTx cfg c).hands := by
    unfold suppressTx
    exact yearSupp_pres cfg c (fragCorr cfg c) (fragCorr_pres cfg c c h0)
  exact (h2 pp ms hh).2 hm

/-- A mandate step writes only mandate flags, never a suppressed flag. -/
theorem mandStep_suppressed (c : Ctx) (st : Hands × Stat) (tok : List Char) :
    ∀ p m k, ((mandStep c st tok).1 p m k).suppressed = (st.1 p m k).suppressed := by
  intro p m k
  unfold mandStep
  split
  · cases hg : getMac c tok with
    | none => rfl
    | some mac =>
      dsimp only
      split <;> split <;> rfl
  · cases hf : findMSS c.mssNames tok with
    | found ms hh =>
      exact updHand_suppressed st.1 c.parallel ms hh
        (fun x => { x with mandated := true }) (fun _ => rfl) p m k
    | nomss => rfl
    | supp => rfl
    | badhand => rfl

/-- The flag-setting phase of mandateTx never changes a suppressed flag. -/
theorem mandPhase1_suppressed (c : Ctx) :
    ∀ p m k, ((mandPhase1 c).1 p m k).suppressed = (c.hands p m k).suppressed := by
  intro p m k
  unfold mandPhase1
  exact foldlPreserve
    (fun (st : Hands × Stat) => (st.1 p m k).suppressed = (c.hands p m k).suppressed)
    (mandStep c) c.subset
    (fun st tok _ hP => (mandStep_suppressed c st tok p m k).trans hP)
    (c.hands, Stat.OK) rfl

/-- Claim C3 (amended): when a command-line name fails to resolve, the
mandate pass skips its allow-list sweep, so no suppressed flag of any
hand is changed by mandateTx; the later reduction passes and the output
phase still run, as the separate counterexample shows. -/
theorem c3_unresolved_skips_sweep (c : Ctx) (hbad : (mandPhase1 c).2 ≠ Stat.OK) :
    ∀ pp ms hh, ((mandateTx c).hands pp ms hh).suppressed = (c.hands pp ms hh).suppressed := by
  intro pp ms hh
  have hne : ¬ c.subset = [] := by
    intro hemp
    apply hbad
    unfold mandPhase1
    rw [hemp]
    rfl
  unfold mandateTx
  rw [if_neg hne, if_neg hbad]
  exact mandPhase1_suppressed c pp ms hh

/-- A mandate step never sets the mandate flag of a hand with index at
least 1 that no witness token of the step names. -/
theorem mandStep_mandated (c : Ctx) (pp ms hh : Nat) (h1 : 1 ≤ hh) (st : Hands × Stat)
    (tok : List Char) (hnn : ¬ namesHand c.mssNames tok ms hh)
    (hm : (st.1 pp ms hh).mandated = false) :
    ((mandStep c st tok).1 pp ms hh).mandated = false := by
  unfold mandStep
  by_cases hdol : tok.head? = some '$'
  · rw [if_pos hdol]
    cases hg : getMac c tok with
    | none => exact hm
    | some mac =>
      dsimp only
      split
      · split
        · rename_i hcond
          exact absurd hcond.2.2.2.2 (by omega)
        · exact hm
      · split
        · rename_i hcond
          exact absurd hcond.2.2.2.2 (by omega)
        · exact hm
  · rw [if_neg hdol]
    cases hf : findMSS c.mssNames tok with
    | found ms2 hh2 =>
      dsimp only
      unfold updHand
      split
      · rename_i heq
        exfalso
        apply hnn
        refine ⟨hdol, ?_⟩
        rw [hf, ← heq.2.1, ← heq.2.2]
      · exact hm
    | nomss => exact hm
    | supp => exact hm
    | badhand => exact hm

/-- Claim C10: when a command-line mandate entry is a macro, only hand 0
of each member witness is marked mandated; consequently, after a fully
resolved mandate pass, every corrector hand (index at least 1) of any
witness that no command-line token names individually with a hand suffix
ends up suppressed by the allow-list sweep, in every parallel. -/
theorem c10_macro_mandates_hand0_only (c : Ctx) (pp ms hh : Nat) (mac : List Char)
    (hne : c.subset ≠ [])
    (hok : (mandPhase1 c).2 = Stat.OK)
    (hmac : mac ∈ c.subset) (hdol : mac.head? = some '$')
    (h1 : 1 ≤ hh) (h4 : hh < 4) (hpp : pp < c.nParallels) (hms : ms < c.nMSS)
    (hnn : ∀ tok ∈ c.subset, ¬ namesHand c.mssNames tok ms hh)
    (hm0 : (c.hands pp ms hh).mandated = false) :
    ((mandPhase1 c).1 pp ms hh).mandated = false
    ∧ ((mandateTx c).hands pp ms hh).suppressed = true := by
  have hph : ((mandPhase1 c).1 pp ms hh).mandated = false := by
    unfold mandPhase1
    exact foldlPreserve (fun (st : Hands × Stat) => (st.1 pp ms hh).mandated = false)
      (mandStep c) c.subset
      (fun st tok htok hP => mandStep_mandated c pp ms hh h1 st tok (hnn tok htok) hP)
      (c.hands, Stat.OK) hm0
  refine ⟨hph, ?_⟩
  unfold mandateTx
  rw [if_neg hne, if_pos hok]
  show ((mandSweep c (mandPhase1 c).1) pp ms hh).suppressed = true
  unfold mandSweep
  rw [if_pos ⟨hpp, hms, h4⟩]
  split
  · rfl
  · rename_i hng
    cases hsup : ((mandPhase1 c).1 pp ms hh).suppressed with
    | false => exact absurd ⟨hsup, hph⟩ hng
    | true => rfl

/-- Claim C2 (amended): the reduction pipeline runs the mandate pass, a
constant-variant pass, the fragment and correction pass with the year
cutoff at its end, a second constant-variant pass, and identical-witness
suppression unless IDOK is set; in particular the year cutoff runs inside
the third pass, before the second constant-variant pass and before
identical-witness suppression, not after them. -/
theorem c2_pipeline_order (cfg : Cfg) (c : Ctx) :
    pipeline cfg c
      = (if cfg.idok
         then suppressVr cfg.nosing
           (yearSupp cfg (fragCorr cfg (suppressVr cfg.nosing (mandateTx c))))
         else suppressId (suppressVr cfg.nosing
           (yearSupp cfg (fragCorr cfg (suppressVr cfg.nosing (mandateTx c)))))) := rfl

/-- Counterexample to claim C2 as stated: on a concrete collation the
pipeline of the code differs from the pipeline that runs the year cutoff
last, because a hand suppressed by the year cutoff no longer counts in
the second constant-variant pass. -/
theorem c2_year_order_counterexample :
    (pipeline cfgC2 ctxC2).wgts 0 = 0 ∧ (specOrderPipeline cfgC2 ctxC2).wgts 0 = 1 := by
  constructor
  · decide
  · decide

/-- Counterexample to claim C1 as stated: the identical-witness pass
suppresses a mandated hand that shares its reading-set reference with an
earlier witness. -/
theorem c1_identical_suppresses_mandated :
    (ctxC1.hands 0 1 0).mandated = true
    ∧ (ctxC1.hands 0 1 0).suppressed = false
    ∧ ((suppressId ctxC1).hands 0 1 0).suppressed = true := by
  refine ⟨by decide, by decide, by decide⟩

/-- Witness for the amended claim C1 at a concrete input. -/
theorem c1_mandated_survives_suppressTx_witness :
    (ctxC1.hands 0 1 0).mandated = true
    ∧ ((suppressTx cfgC1 ctxC1).hands 0 1 0).suppressed = (ctxC1.hands 0 1 0).suppressed :=
  ⟨by decide, c1_mandated_survives_suppressTx cfgC1 ctxC1 0 1 0 (by decide)⟩

/-- Counterexample to claim C3 as stated: with an unknown name on the
command line the later reduction passes still run, here the first
constant-variant pass zeroes the weight of the constant unit. -/
theorem c3_later_passes_still_run :
    (mandPhase1 ctxC3).2 = Stat.WARN
    ∧ ctxC3.wgts 0 = 1
    ∧ (pipeline cfgC3 ctxC3).wgts 0 = 0 := by
  refine ⟨by decide, by decide, by decide⟩

/-- Witness for the amended claim C3 at a concrete input. -/
theorem c3_unresolved_skips_sweep_witness :
    (mandPhase1 ctxC3).2 ≠ Stat.OK
    ∧ ((mandateTx ctxC3).hands 0 0 0).suppressed = (ctxC3.hands 0 0 0).suppressed :=
  ⟨by decide, c3_unresolved_skips_sweep ctxC3 (by decide) 0 0 0⟩

/-- Witness for claim C4 at a concrete input. -/
theorem c4_constant_variant_suppression_witness :
    (unitList ctxC4).get? 0 = some (0, 0)
    ∧ (((suppressVr false ctxC4).wgts 0 = if specConstB false ctxC4 0 0 then 0 else ctxC4.wgts 0)
      ∧ ((suppressVr false ctxC4).wgts 0 ≠ 0 → specConstB false ctxC4 0 0 = false)
      ∧ (suppressVr false ctxC4).wvar = ctxC4.wvar - elimTotal false ctxC4) :=
  ⟨by decide, c4_constant_variant_suppression ctxC4 false 0 0 0 (by decide)⟩

/-- Claim C5, evaluated at the failing input: after initParallel with the
counter at its initial value 1, the all macro gets level 1 and the
unknown-reading macro level 2; the first ordinary macro created by
doDefine gets level 3, so the ordinary macro outranks the unknown-reading
macro in priority resolution, against the claim and against the prep.h
comment that marks the unknown-reading macro as high priority. -/
theorem c5_unknown_macro_outranked :
    macEnvA.levels '*' = some 1 ∧ macEnvA.levels '?' = some 2 ∧ macEnvA.levels 'a' = some 3
    ∧ (macEnvA.levels 'a').getD 0 > (macEnvA.levels '?').getD 0 := by
  refine ⟨by decide, by decide, by decide, by decide⟩

/-- Claim C6 (amended): with no year granularity configured, stratify
gives every surviving hand its average year itself as stratum, so equal
years share a stratum and later years get strictly greater strata, but
the strata are the raw years: no compaction to consecutive integers
happens in this mode. -/
theorem c6_stratify_no_granularity (c : Ctx) (pp ms hh pp2 ms2 hh2 : Nat)
    (h1 : pp < c.nParallels) (h2 : ms < c.nMSS) (h3 : hh < 4)
    (hs : (c.hands pp ms hh).suppressed = false)
    (h1b : pp2 < c.nParallels) (h2b : ms2 < c.nMSS) (h3b : hh2 < 4)
    (hsb : (c.hands pp2 ms2 hh2).suppressed = false) :
    ((stratify 0 c).hands pp ms hh).stratum = (c.hands pp ms hh).average
    ∧ ((c.hands pp ms hh).average = (c.hands pp2 ms2 hh2).average →
        ((stratify 0 c).hands pp ms hh).stratum = ((stratify 0 c).hands pp2 ms2 hh2).stratum)
    ∧ ((c.hands pp ms hh).average < (c.hands pp2 ms2 hh2).average →
        ((stratify 0 c).hands pp ms hh).stratum < ((stratify 0 c).hands pp2 ms2 hh2).stratum) := by
  have key : ∀ p m k, p < c.nParallels → m < c.nMSS → k < 4 →
      (c.hands p m k).suppressed = false →
      ((stratify 0 c).hands p m k).stratum = (c.hands p m k).average := by
    intro p m k kp km kk ks
    unfold stratify
    rw [if_pos rfl]
    unfold stratPass1
    dsimp only
    rw [if_pos ⟨kp, km, kk, ks⟩]
    show litStratum 0 (c.hands p m k).average = (c.hands p m k).average
    unfold litStratum
    rw [if_pos rfl]
  have k1 := key pp ms hh h1 h2 h3 hs
  have k2 := key pp2 ms2 hh2 h1b h2b h3b hsb
  refine ⟨k1, ?_, ?_⟩
  · intro he
    rw [k1, k2, he]
  · intro hlt
    rw [k1, k2]
    exact hlt

/-- Counterexample to claim C6 as stated: two surviving hands with average
years 150 and 400 get strata 150 and 400, not the consecutive integers 0
and 1. -/
theorem c6_no_compaction_counterexample :
    ((stratify 0 ctxC6).hands 0 0 0).stratum = 150
    ∧ ((stratify 0 ctxC6).hands 0 1 0).stratum = 400
    ∧ ({150, 400} : Finset Nat) ≠ Finset.range 2 := by
  refine ⟨by decide, by decide, by decide⟩

/-- Witness for the amended claim C6 at a concrete input. -/
theorem c6_stratify_no_granularity_witness :
    (ctxC6.hands 0 0 0).suppressed = false
    ∧ ((stratify 0 ctxC6).hands 0 0 0).stratum = (ctxC6.hands 0 0 0).average
    ∧ ((ctxC6.hands 0 0 0).average < (ctxC6.hands 0 1 0).average →
        ((stratify 0 ctxC6).hands 0 0 0).stratum < ((stratify 0 ctxC6).hands 0 1 0).stratum) := by
  have h := c6_stratify_no_granularity ctxC6 0 0 0 0 1 0 (by decide) (by decide) (by decide)
    (by decide) (by decide) (by decide) (by decide) (by decide)
  exact ⟨by decide, h.1, h.2.2⟩

/-- Claim C7 (amended): without environment overrides, the fragment
threshold is the smallest integer strictly exceeding half the weighted
total (the floor of half plus one, not the rounded-up half), and the
correction threshold is the smallest integer strictly exceeding one tenth
of the weighted total, except that above 200 units it is the constant
100. -/
theorem c7_thresholds (cfg : Cfg) (c : Ctx) (hf : cfg.fragEnv = none) (hc : cfg.corrEnv = none) :
    (c.wvar < 2 * fragThresh cfg c ∧ ∀ t, c.wvar < 2 * t → fragThresh cfg c ≤ t)
    ∧ (c.nVar ≤ 2 * CTHRESHOLD →
        (c.wvar < 10 * corrThresh cfg c ∧ ∀ t, c.wvar < 10 * t → corrThresh cfg c ≤ t))
    ∧ (2 * CTHRESHOLD < c.nVar → corrThresh cfg c = CTHRESHOLD) := by
  have hfv : fragThresh cfg c = c.wvar / 2 + 1 := by
    unfold fragThresh
    rw [hf]
  have hcv : corrThresh cfg c
      = if 2 * CTHRESHOLD < c.nVar then CTHRESHOLD else c.wvar / 10 + 1 := by
    unfold corrThresh
    rw [hc]
  refine ⟨⟨?_, ?_⟩, ?_, ?_⟩
  · rw [hfv]; omega
  · intro t ht
    rw [hfv]; omega
  · intro hn
    rw [hcv, if_neg (by omega)]
    exact ⟨by omega, fun t ht => by omega⟩
  · intro hn
    rw [hcv, if_pos hn]

/-- Counterexample to claim C7 as stated: with weighted total 10 the
fragment threshold is 6, not the rounded-up half 5, and the correction
threshold is 2, not the rounded-up tenth 1. -/
theorem c7_threshold_counterexample :
    fragThresh cfgC7 ctxC7 = 6 ∧ ceilHalf ctxC7.wvar = 5
    ∧ corrThresh cfgC7 ctxC7 = 2 ∧ ceilTenth ctxC7.wvar = 1
    ∧ fragThresh cfgC7 ctxC7 ≠ ceilHalf ctxC7.wvar
    ∧ corrThresh cfgC7 ctxC7 ≠ ceilTenth ctxC7.wvar := by
  refine ⟨by decide, by decide, by decide, by decide, by decide, by decide⟩

/-- Witness for the amended claim C7 at a concrete input. -/
theorem c7_thresholds_witness :
    cfgC7.fragEnv = none
    ∧ ctxC7.wvar < 2 * fragThresh cfgC7 ctxC7
    ∧ (2 * CTHRESHOLD < ctxC7.nVar → corrThresh cfgC7 ctxC7 = CTHRESHOLD) := by
  have h := c7_thresholds cfgC7 ctxC7 rfl rfl
  exact ⟨rfl, h.1.1, h.2.2⟩

/-- Claim C8: the weight of a unit opened by a reading separator is the
number after a star suffix, the rounded-up quotient of a bare positive
numeric suffix by a positive divisor, zero for an explicit bare zero, and
one when there is no suffix. -/
theorem c8_weight_suffix (d n s : Nat) (ds rest : List Char) :
    barWeight [] d = 1
    ∧ (atoiNat ds = n → barWeight ('*' :: ds) d = n)
    ∧ (rest ≠ [] → rest.head? ≠ some '*' → atoiNat rest = s → 0 < s → 0 < d →
        barWeight rest d = (s + d - 1) / d)
    ∧ (rest ≠ [] → rest.head? ≠ some '*' → atoiNat rest = 0 → barWeight rest d = 0) := by
  refine ⟨rfl, ?_, ?_, ?_⟩
  · intro ha
    unfold barWeight
    rw [if_neg (by simp), if_pos (by simp)]
    simpa using ha
  · intro hne hhd ha hsp hdp
    unfold barWeight
    rw [if_neg hne, if_neg hhd, if_neg (by omega), if_neg (by omega), ha]
    have he2 : s + d - 1 = (s - 1) + d := by omega
    rw [he2, Nat.add_div_right _ hdp]
  · intro hne hhd ha
    unfold barWeight
    rw [if_neg hne, if_neg hhd, if_pos ha]

/-- Witness for claim C8 at concrete inputs: no suffix, a star suffix, a
bare score 7 with divisor 3, and an explicit zero. -/
theorem c8_weight_suffix_witness :
    barWeight [] 3 = 1 ∧ barWeight ['*', '5'] 3 = 5
    ∧ barWeight ['7'] 3 = 3 ∧ barWeight ['0'] 3 = 0 := by
  have h := c8_weight_suffix 3 5 7 ['5'] ['7']
  have h2 := c8_weight_suffix 3 5 0 ['5'] ['0']
  exact ⟨h.1, h.2.1 (by decide),
    h.2.2.1 (by decide) (by decide) (by decide) (by decide) (by decide),
    h2.2.2.2 (by decide) (by decide) (by decide)⟩

/-- Claim C9, evaluated at the failing input: doEat returns the fatal
status at end of input, but the main switch arm for the plus command
falls through and overwrites the status with OK, so the loop ends with
status OK and zero warnings, the pipeline and output phase run and the
exit code is 0; for the other bracketed commands a fatal handler status
does stop the loop, skip the pipeline and exit with the distinct code
-3. -/
theorem c9_eat_fallthrough_eval :
    doEatTok [['f', 'o', 'o']] = (Stat.FATAL, [])
    ∧ switchStatus '+' Stat.FATAL = Stat.OK
    ∧ mainLoop [('+', Stat.FATAL)] Stat.OK 0 = (Stat.OK, 0)
    ∧ pipelineRuns (Stat.OK, 0) = true
    ∧ exitCode (Stat.OK, 0) = 0
    ∧ switchStatus '=' Stat.FATAL = Stat.FATAL
    ∧ mainLoop [('=', Stat.FATAL)] Stat.OK 0 = (Stat.FATAL, 0)
    ∧ pipelineRuns (Stat.FATAL, 0) = false
    ∧ exitCode (Stat.FATAL, 0) = -3 := by
  refine ⟨by decide, by decide, by decide, by decide, by decide, by decide, by decide,
    by decide, by decide⟩

/-- Witness for claim C10 at a concrete input: a macro over two witnesses
on the command line leaves the corrector hand of the second witness
unmandated, and the allow-list sweep suppresses it. -/
theorem c10_macro_mandates_hand0_only_witness :
    (mandPhase1 ctxC10).2 = Stat.OK
    ∧ ((mandPhase1 ctxC10).1 0 1 1).mandated = false
    ∧ ((mandateTx ctxC10).hands 0 1 1).suppressed = true := by
  have h := c10_macro_mandates_hand0_only ctxC10 0 1 1 (['$', 'm']) (by decide) (by decide)
    (by decide) (by decide) (by decide) (by decide) (by decide) (by decide) (by decide)
    (by decide)
  exact ⟨by decide, h.1, h.2⟩
